import Mathlib

/-!
Verification of the sc-lang-analyzer repository (`lang-analyzer/analyzer.py`,
`lang-analyzer/utils.py`, `lang-analyzer/config.py`).

The program reads a line-oriented localization file into a set of stripped
lines (`LangAnalyzer.read_file`), diffs it against the most recently modified
previous dump (`find_latest_file`, set difference), computes statistics over
the diff (`LangAnalyzer._process_lines`), and writes a log file and a dump
file (`LangAnalyzer._write_logs`, `LangAnalyzer._format_log_data`).

The embedding below models Python strings as Lean `String` (a list of
characters), Python sets of strings as lists enumerating the set in some
iteration order (deduplicated, first occurrence kept), and the filesystem
interactions by passing file contents explicitly (`Option` marks a missing or
unreadable file).
-/

/-- Python `str.strip()` on a list of characters: drop whitespace from both
ends.  Models the builtin used by `read_file` and `_process_lines`. -/
def pyStripL (l : List Char) : List Char :=
  ((l.dropWhile Char.isWhitespace).reverse.dropWhile Char.isWhitespace).reverse

/-- Python `str.strip()` on strings. -/
def pyStrip (s : String) : String := String.mk (pyStripL s.data)

/-- Helper for `pySplit1`: scan the characters for the first occurrence of
`sep`, accumulating the characters seen so far (in reverse) in `acc`. -/
def splitOnceAux (sep : Char) : List Char → List Char → List String
  | [], acc => [String.mk acc.reverse]
  | c :: cs, acc =>
    if c = sep then [String.mk acc.reverse, String.mk cs]
    else splitOnceAux sep cs (c :: acc)

/-- Python `s.split(sep, 1)` for a one-character separator: at most one split,
at the first occurrence of `sep`.  Yields `[s]` when `sep` does not occur and
`[before, after]` when it does.  Models `line.split('.', 1)` and
`value.split('=', 1)` in `_process_lines`. -/
def pySplit1 (sep : Char) (s : String) : List String := splitOnceAux sep s.data []

/-- The substring of `s` strictly before the first occurrence of `c`
(the whole string when `c` does not occur). -/
def beforeChar (c : Char) (s : String) : String :=
  String.mk (s.data.takeWhile (fun a => a ≠ c))

/-- The substring of `s` strictly after the first occurrence of `c`
(empty when `c` does not occur). -/
def afterChar (c : Char) (s : String) : String :=
  String.mk ((s.data.dropWhile (fun a => a ≠ c)).drop 1)

/-- Boolean list-prefix test, by direct recursion. -/
def isPre : List Char → List Char → Bool
  | [], _ => true
  | _ :: _, [] => false
  | a :: as, b :: bs => a = b && isPre as bs

/-- Python `s.startswith(p)`.  Models `line.startswith("item.")`. -/
def pyStartsWith (s p : String) : Bool := isPre p.data s.data

/-- Deduplicate a list keeping the first occurrence of each element: one
concrete enumeration of the Python set built by a set comprehension. -/
def dedupFirst (l : List String) : List String :=
  l.foldl (fun acc s => if s ∈ acc then acc else acc ++ [s]) []

/-- `defaultdict(int)` increment `d[k] += 1` on an insertion-ordered
association list (Python dicts preserve insertion order; a new key is
appended at the end). -/
def dictIncr (k : String) : List (String × Nat) → List (String × Nat)
  | [] => [(k, 1)]
  | p :: rest => if p.1 = k then (p.1, p.2 + 1) :: rest else p :: dictIncr k rest

/-- Python `set.add` on an insertion-ordered list representation of a set. -/
def setAdd (k : String) (l : List String) : List String :=
  if k ∈ l then l else l ++ [k]

/-- The mutable loop state of `_process_lines`: `prefix_counts` (a
`defaultdict(int)` as an insertion-ordered association list),
`empty_value_count`, `unique_prefixes` (a set), `item_values`. -/
structure LoopState where
  prefix_counts : List (String × Nat)
  empty_value_count : Nat
  unique_prefixes : List String
  item_values : List String
deriving DecidableEq

/-- One iteration of the `for line in lines` loop of `_process_lines`:

    parts = line.split('.', 1)
    if len(parts) > 1:
        prefix, value = parts
        prefix_counts[prefix] += 1
        unique_prefixes.add(prefix)
        value_parts = value.split('=', 1)
        if len(value_parts) > 1 and not value_parts[1].strip():
            empty_value_count += 1
        if line.startswith("item."):
            try:
                item_values.append(value_parts[1].strip())
            except IndexError:
                pass

The caught `IndexError` (no `=` in the value portion) is the `none` case of
`afterEq` below. -/
def stepLine (st : LoopState) (line : String) : LoopState :=
  match pySplit1 '.' line with
  | [pfx, value] =>
    let afterEq : Option String :=
      match pySplit1 '=' value with
      | [_, v1] => some v1
      | _ => none
    { prefix_counts := dictIncr pfx st.prefix_counts
      empty_value_count :=
        match afterEq with
        | some v1 =>
          if pyStrip v1 = "" then st.empty_value_count + 1 else st.empty_value_count
        | none => st.empty_value_count
      unique_prefixes := setAdd pfx st.unique_prefixes
      item_values :=
        if pyStartsWith line "item." then
          match afterEq with
          | some v1 => st.item_values ++ [pyStrip v1]
          | none => st.item_values
        else st.item_values }
  | _ => st

/-- Insert one entry into a list sorted by descending count, after every
earlier entry with a greater-or-equal count (so a stable sort results). -/
def insertDesc (x : String × Nat) : List (String × Nat) → List (String × Nat)
  | [] => [x]
  | y :: ys => if y.2 ≤ x.2 then x :: y :: ys else y :: insertDesc x ys

/-- Python `sorted(d.items(), key=lambda item: item[1], reverse=True)`:
a stable sort by descending count (ties keep insertion order). -/
def sortCountsDesc : List (String × Nat) → List (String × Nat)
  | [] => []
  | x :: xs => insertDesc x (sortCountsDesc xs)

/-- The dictionary returned by `_process_lines`. -/
structure ProcessResult where
  prefix_counts : List (String × Nat)
  empty_value_count : Nat
  total_length : Nat
  unique_prefixes : Nat
  item_values : List String
  max_prefix_len : Nat
  new_lines_count : Nat
deriving DecidableEq

/-- The initial loop state of `_process_lines`. -/
def initState : LoopState := ⟨[], 0, [], []⟩

/-- `max(ns) if ns else 0` over natural numbers. -/
def listMaxNat (l : List Nat) : Nat := l.foldr max 0

/-- `LangAnalyzer._process_lines(lines)`.  The input list enumerates the
Python set passed in (`new_lines - old_lines` in `analyze_file`). -/
def processLines (lines : List String) : ProcessResult :=
  let st := lines.foldl stepLine initState
  let sorted := sortCountsDesc st.prefix_counts
  { prefix_counts := sorted
    empty_value_count := st.empty_value_count
    total_length := (lines.map String.length).sum
    unique_prefixes := st.unique_prefixes.length
    item_values := st.item_values
    max_prefix_len := listMaxNat (sorted.map (fun p => p.1.length))
    new_lines_count := lines.length }

/-- Helper for `pyReadlines`: cut the character stream into chunks ending at
each newline; a final chunk without a newline is kept when nonempty. -/
def readlinesAux : List Char → List Char → List (List Char)
  | [], acc => if acc.isEmpty then [] else [acc.reverse]
  | c :: cs, acc =>
    if c = '\n' then (acc.reverse ++ ['\n']) :: readlinesAux cs []
    else readlinesAux cs (c :: acc)

/-- Python `f.readlines()` on a file's full content: the lines, each keeping
its trailing newline, the last possibly without one. -/
def pyReadlines (s : String) : List String := (readlinesAux s.data []).map String.mk

/-- `read_file` on a present, readable file: the set
`{line.strip() for line in f.readlines()}`, as a `Finset`. -/
def readFileSet (s : String) : Finset String :=
  ((pyReadlines s).map pyStrip).toFinset

/-- The file content produced by `write_file` in `_write_logs`:
`for line in lines: await file.write(line + '\n')`. -/
def writeLines : List String → String
  | [] => ""
  | line :: rest => line ++ "\n" ++ writeLines rest

/-- `LangAnalyzer.read_file(path)`.  The file's content is passed explicitly;
`none` stands for a missing or unreadable file.  Returns the set of stripped
lines (enumerated first-occurrence first) together with the error messages
printed to the console.  Both `except` branches print an error and return the
empty set, so the run continues. -/
def read_file (path : String) (content : Option String) : List String × List String :=
  match content with
  | some s => (dedupFirst ((pyReadlines s).map pyStrip), [])
  | none => ([], ["Error: File not found - " ++ path])

/-- Python `f"{s: <{w}}"`: left-justify `s` in a field of width `w`. -/
def padRight (s : String) (w : Nat) : String :=
  s ++ String.mk (List.replicate (w - s.length) ' ')

/-- `LangAnalyzer._format_log_data`: header lines, the statistics block, then
the marker lines `"\nNew lines:"` and `""`, then every element of the
`new_lines` set passed by `analyze_file` (which is the full current snapshot,
not the diff). -/
def format_log_data (now : String) (results : ProcessResult)
    (new_lines : List String) (newPath : String) (oldPath : Option String) :
    List String :=
  (["Analysis time: " ++ now,
    "New file: " ++ newPath,
    "Comparison file: " ++ (match oldPath with | some p => p | none => "Not found"),
    "Total number of new lines: " ++ toString results.new_lines_count,
    "Number of lines with empty values: " ++ toString results.empty_value_count,
    "Total length of new lines: " ++ toString results.total_length,
    "Number of unique prefixes: " ++ toString results.unique_prefixes,
    "\nPrefix statistics:"]
   ++ results.prefix_counts.map
        (fun p => padRight p.1 results.max_prefix_len ++ ": " ++ toString p.2))
  ++ (["\nNew lines:", ""] ++ new_lines)

/-- The observable outcome of one `analyze_file` run: console error messages
and the two output files (their line contents; `none` would mean the file was
not produced — the code writes both unconditionally). -/
structure RunResult where
  errors : List String
  log_file : Option (List String)
  dump_file : Option (List String)
  analysis : ProcessResult
deriving DecidableEq

/-- `LangAnalyzer.analyze_file`, with the filesystem passed explicitly:
`newContent` is the content of the new input file (`none` when missing or
unreadable), `oldFile` the path and content of the most recent previous dump
found by `find_latest_file` (`none` when the dumps directory has no match).
The code reads the old dump, reads the new file, takes the set difference
`new_lines - old_lines`, analyzes it, and writes the log and the dump —
`_write_logs` receives the full `new_lines` set for both the log tail and the
dump file. -/
def analyze_file (now newPath : String) (newContent : Option String)
    (oldFile : Option (String × String)) : RunResult :=
  let oldRead := match oldFile with
    | some pc => read_file pc.1 (some pc.2)
    | none => ([], [])
  let newRead := read_file newPath newContent
  let old_lines := oldRead.1
  let new_lines := newRead.1
  let diff := new_lines.filter (fun l => decide (l ∉ old_lines))
  let results := processLines diff
  { errors := oldRead.2 ++ newRead.2
    log_file := some (format_log_data now results new_lines newPath (oldFile.map Prod.fst))
    dump_file := some new_lines
    analysis := results }

/-- Python `max(files, key=lambda p: p.stat().st_mtime)` over a nonempty
list: keep the current maximum, replacing it only on a strictly greater
modification time (so the first maximal element wins).  A file is modelled as
its path paired with its modification time. -/
def maxByMtime : List (String × Nat) → (String × Nat) → (String × Nat)
  | [], best => best
  | f :: fs, best => maxByMtime fs (if best.2 < f.2 then f else best)

/-- `find_latest_file` as defined in `analyzer.py`: `None` when no file
matches the glob, otherwise the path with the greatest modification time. -/
def find_latest_file_analyzer (files : List (String × Nat)) : Option String :=
  match files with
  | [] => none
  | f :: fs => some (maxByMtime fs f).1

/-- `find_latest_file` as defined in `utils.py`:
`str(max(files, key=lambda x: x.stat().st_mtime, default=None))` — when no
file matches, `max` yields `None` and `str(None)` is the string `"None"`. -/
def find_latest_file_utils (files : List (String × Nat)) : String :=
  match files with
  | [] => "None"
  | f :: fs => (maxByMtime fs f).1

/-! ### Helper lemmas about the character-level primitives -/

theorem mk_data (s : String) : String.mk s.data = s := by
  cases s
  rfl

theorem data_append (a b : String) : (a ++ b).data = a.data ++ b.data := by
  cases a
  cases b
  rfl

theorem splitOnceAux_of_not_mem (sep : Char) (cs : List Char) :
    ∀ acc : List Char, sep ∉ cs →
      splitOnceAux sep cs acc = [String.mk (acc.reverse ++ cs)] := by
  induction cs with
  | nil => intro acc _; simp [splitOnceAux]
  | cons c cs ih =>
    intro acc h
    have hc : ¬ c = sep := fun e => h (by simp [e])
    have hcs : sep ∉ cs := fun e => h (by simp [e])
    simp only [splitOnceAux, if_neg hc]
    rw [ih (c :: acc) hcs]
    simp

theorem splitOnceAux_of_mem (sep : Char) (cs : List Char) :
    ∀ acc : List Char, sep ∈ cs →
      splitOnceAux sep cs acc =
        [String.mk (acc.reverse ++ cs.takeWhile (fun a => a ≠ sep)),
         String.mk ((cs.dropWhile (fun a => a ≠ sep)).drop 1)] := by
  induction cs with
  | nil => intro acc h; simp at h
  | cons c cs ih =>
    intro acc h
    by_cases hc : c = sep
    · subst hc
      simp [splitOnceAux, List.takeWhile_cons, List.dropWhile_cons]
    · have hcs : sep ∈ cs := by
        rcases List.mem_cons.mp h with h1 | h1
        · exact absurd h1.symm hc
        · exact h1
      simp only [splitOnceAux, if_neg hc]
      rw [ih (c :: acc) hcs]
      simp [List.takeWhile_cons, List.dropWhile_cons, hc]

theorem pySplit1_of_not_mem (sep : Char) (s : String) (h : sep ∉ s.data) :
    pySplit1 sep s = [s] := by
  unfold pySplit1
  rw [splitOnceAux_of_not_mem sep s.data [] h]
  simp [mk_data]

theorem pySplit1_of_mem (sep : Char) (s : String) (h : sep ∈ s.data) :
    pySplit1 sep s = [beforeChar sep s, afterChar sep s] := by
  unfold pySplit1 beforeChar afterChar
  rw [splitOnceAux_of_mem sep s.data [] h]
  simp

theorem stepLine_of_no_dot (st : LoopState) (line : String) (h : '.' ∉ line.data) :
    stepLine st line = st := by
  unfold stepLine
  rw [pySplit1_of_not_mem '.' line h]

/-- The body of the dot branch of the `_process_lines` loop, with the two
halves of the split named explicitly. -/
theorem stepLine_of_dot (st : LoopState) (line : String) (h : '.' ∈ line.data) :
    stepLine st line =
      (let value := afterChar '.' line
       let afterEq : Option String :=
         match pySplit1 '=' value with
         | [_, v1] => some v1
         | _ => none
       { prefix_counts := dictIncr (beforeChar '.' line) st.prefix_counts
         empty_value_count :=
           match afterEq with
           | some v1 =>
             if pyStrip v1 = "" then st.empty_value_count + 1 else st.empty_value_count
           | none => st.empty_value_count
         unique_prefixes := setAdd (beforeChar '.' line) st.unique_prefixes
         item_values :=
           if pyStartsWith line "item." then
             match afterEq with
             | some v1 => st.item_values ++ [pyStrip v1]
             | none => st.item_values
           else st.item_values } : LoopState) := by
  unfold stepLine
  rw [pySplit1_of_mem '.' line h]

/-! ### Sums of the prefix-count dictionary (claims C4, C10) -/

theorem sum_dictIncr (k : String) (l : List (String × Nat)) :
    ((dictIncr k l).map Prod.snd).sum = (l.map Prod.snd).sum + 1 := by
  induction l with
  | nil => simp [dictIncr]
  | cons p rest ih =>
    by_cases hp : p.1 = k
    · simp [dictIncr, hp]
      omega
    · simp [dictIncr, hp, ih]
      omega

theorem sum_insertDesc (x : String × Nat) (l : List (String × Nat)) :
    ((insertDesc x l).map Prod.snd).sum = x.2 + (l.map Prod.snd).sum := by
  induction l with
  | nil => simp [insertDesc]
  | cons y ys ih =>
    by_cases hy : y.2 ≤ x.2
    · simp [insertDesc, hy]
    · simp [insertDesc, hy, ih]
      omega

theorem sum_sortCountsDesc (l : List (String × Nat)) :
    ((sortCountsDesc l).map Prod.snd).sum = (l.map Prod.snd).sum := by
  induction l with
  | nil => rfl
  | cons x xs ih => simp [sortCountsDesc, sum_insertDesc, ih]

theorem sum_stepLine (st : LoopState) (line : String) :
    ((stepLine st line).prefix_counts.map Prod.snd).sum =
      (st.prefix_counts.map Prod.snd).sum + (if '.' ∈ line.data then 1 else 0) := by
  by_cases h : '.' ∈ line.data
  · rw [stepLine_of_dot st line h]
    simp [sum_dictIncr, h]
  · rw [stepLine_of_no_dot st line h]
    simp [h]

theorem sum_foldl_stepLine (lines : List String) :
    ∀ st : LoopState,
      (((lines.foldl stepLine st).prefix_counts).map Prod.snd).sum =
        (st.prefix_counts.map Prod.snd).sum +
          lines.countP (fun l => decide ('.' ∈ l.data)) := by
  induction lines with
  | nil => intro st; simp
  | cons line rest ih =>
    intro st
    simp only [List.foldl_cons, List.countP_cons]
    rw [ih (stepLine st line), sum_stepLine]
    by_cases h : '.' ∈ line.data
    · simp [h]
      omega
    · simp [h]

theorem processLines_prefix_counts (lines : List String) :
    (processLines lines).prefix_counts =
      sortCountsDesc ((lines.foldl stepLine initState).prefix_counts) := rfl

theorem processLines_sum (lines : List String) :
    ((processLines lines).prefix_counts.map Prod.snd).sum =
      lines.countP (fun l => decide ('.' ∈ l.data)) := by
  rw [processLines_prefix_counts, sum_sortCountsDesc, sum_foldl_stepLine]
  simp [initState]

/-- Claim C4: over any enumeration of the input line set, the values of
`prefix_counts` sum to the number of lines containing at least one `'.'`;
that sum is at most the number of lines, with equality exactly when every
line contains a `'.'`. -/
theorem c4_prefix_counts_sum (lines : List String) :
    ((processLines lines).prefix_counts.map Prod.snd).sum =
        lines.countP (fun l => decide ('.' ∈ l.data)) ∧
      ((processLines lines).prefix_counts.map Prod.snd).sum ≤ lines.length ∧
      (((processLines lines).prefix_counts.map Prod.snd).sum = lines.length ↔
        ∀ l ∈ lines, '.' ∈ l.data) := by
  refine ⟨processLines_sum lines, ?_, ?_⟩
  · rw [processLines_sum]
    exact List.countP_le_length _
  · rw [processLines_sum]
    rw [List.countP_eq_length]
    simp

theorem stepLine_ec_le (st : LoopState) (line : String) :
    (stepLine st line).empty_value_count ≤
      st.empty_value_count + (if '.' ∈ line.data then 1 else 0) := by
  by_cases h : '.' ∈ line.data
  · rw [stepLine_of_dot st line h]
    simp only [h, if_true]
    rcases pySplit1 '=' (afterChar '.' line) with _ | ⟨v0, _ | ⟨v1, _ | ⟨w, ws⟩⟩⟩
    · simp
    · simp
    · by_cases hv : pyStrip v1 = "" <;> simp [hv]
    · simp
  · rw [stepLine_of_no_dot st line h]
    simp [h]

theorem ec_foldl_stepLine (lines : List String) :
    ∀ st : LoopState,
      (lines.foldl stepLine st).empty_value_count ≤
        st.empty_value_count + lines.countP (fun l => decide ('.' ∈ l.data)) := by
  induction lines with
  | nil => intro st; simp
  | cons line rest ih =>
    intro st
    simp only [List.foldl_cons, List.countP_cons]
    calc (rest.foldl stepLine (stepLine st line)).empty_value_count
        ≤ (stepLine st line).empty_value_count +
            rest.countP (fun l => decide ('.' ∈ l.data)) := ih _
      _ ≤ st.empty_value_count + (if '.' ∈ line.data then 1 else 0) +
            rest.countP (fun l => decide ('.' ∈ l.data)) := by
          have := stepLine_ec_le st line
          omega
      _ ≤ st.empty_value_count +
            (rest.countP (fun l => decide ('.' ∈ l.data)) +
              if decide ('.' ∈ line.data) = true then 1 else 0) := by
          by_cases h : '.' ∈ line.data
          · simp [h]
            omega
          · simp [h]

/-- Claim C10: `empty_value_count` only counts lines containing a `'.'`
(a line such as `"key="` is never counted), so it never exceeds the sum of
the `prefix_counts` values. -/
theorem c10_empty_value_le_prefix_sum (lines : List String) (st : LoopState)
    (line : String) :
    ('.' ∉ line.data → (stepLine st line).empty_value_count = st.empty_value_count) ∧
      (processLines lines).empty_value_count ≤
        ((processLines lines).prefix_counts.map Prod.snd).sum := by
  constructor
  · intro h
    rw [stepLine_of_no_dot st line h]
  · rw [processLines_sum]
    have : (processLines lines).empty_value_count =
        (lines.foldl stepLine initState).empty_value_count := rfl
    rw [this]
    have := ec_foldl_stepLine lines initState
    simpa [initState] using this

/-! ### The `startswith("item.")` test versus the split prefix (claim C6) -/

theorem isPre_iff (p : List Char) :
    ∀ l : List Char, isPre p l = true ↔ ∃ t, l = p ++ t := by
  induction p with
  | nil => intro l; simp [isPre]
  | cons a as ih =>
    intro l
    cases l with
    | nil =>
      simp [isPre]
    | cons b bs =>
      simp only [isPre, Bool.and_eq_true, decide_eq_true_eq, ih bs]
      constructor
      · rintro ⟨hab, t, ht⟩
        exact ⟨t, by rw [hab, ht]; rfl⟩
      · rintro ⟨t, ht⟩
        rw [List.cons_append] at ht
        injection ht with h1 h2
        exact ⟨h1.symm, t, h2⟩

theorem dropWhile_ne_of_mem (c : Char) (l : List Char) (h : c ∈ l) :
    ∃ t, l.dropWhile (fun a => a ≠ c) = c :: t := by
  induction l with
  | nil => simp at h
  | cons b bs ih =>
    by_cases hb : b = c
    · subst hb
      exact ⟨bs, by simp [List.dropWhile_cons]⟩
    · have hc : c ∈ bs := by
        rcases List.mem_cons.mp h with h1 | h1
        · exact absurd h1.symm hb
        · exact h1
      rcases ih hc with ⟨t, ht⟩
      refine ⟨t, ?_⟩
      rw [List.dropWhile_cons]
      simp only [hb, decide_False, decide_True, Bool.not_false, if_true, ne_eq, decide_not]
      simpa [decide_not] using ht

theorem itemDot_data : ("item." : String).data = ['i', 't', 'e', 'm', '.'] := rfl

/-- Inside the dot branch (`'.' ∈ line.data`), the `line.startswith("item.")`
test of the source is the same as asking that the substring before the first
`'.'` is exactly `"item"`. -/
theorem pyStartsWith_item_iff (line : String) (h : '.' ∈ line.data) :
    pyStartsWith line "item." = true ↔ beforeChar '.' line = "item" := by
  unfold pyStartsWith
  rw [isPre_iff, itemDot_data]
  constructor
  · rintro ⟨t, ht⟩
    unfold beforeChar
    rw [ht]
    simp [List.takeWhile_cons]
  · intro hb
    rcases dropWhile_ne_of_mem '.' line.data h with ⟨t, ht⟩
    refine ⟨t, ?_⟩
    have hb2 : line.data.takeWhile (fun a => a ≠ '.') = ['i', 't', 'e', 'm'] := by
      have := congrArg String.data hb
      simpa [beforeChar] using this
    calc line.data
        = line.data.takeWhile (fun a => a ≠ '.') ++
            line.data.dropWhile (fun a => a ≠ '.') :=
          (List.takeWhile_append_dropWhile (p := fun a => a ≠ '.') (l := line.data)).symm
      _ = ['i', 't', 'e', 'm', '.'] ++ t := by rw [hb2, ht]; rfl

/-- Claim C6: a line contributes to `item_values` exactly when its prefix
(the substring before the first `'.'`) is `"item"` and an `'='` occurs in the
portion after the first `'.'`; the appended entry is the stripped substring
after that first `'='`, and a line with no `'='` is skipped. -/
theorem c6_item_values_step (st : LoopState) (line : String) :
    (stepLine st line).item_values =
      st.item_values ++
        (if '.' ∈ line.data ∧ beforeChar '.' line = "item" ∧
            '=' ∈ (afterChar '.' line).data then
          [pyStrip (afterChar '=' (afterChar '.' line))]
        else []) := by
  by_cases h : '.' ∈ line.data
  · rw [stepLine_of_dot st line h]
    dsimp only
    by_cases hi : beforeChar '.' line = "item"
    · have hs : pyStartsWith line "item." = true := (pyStartsWith_item_iff line h).mpr hi
      by_cases he : '=' ∈ (afterChar '.' line).data
      · rw [pySplit1_of_mem '=' _ he]
        simp [hs, h, hi, he]
      · rw [pySplit1_of_not_mem '=' _ he]
        simp [hs, h, hi, he]
    · have hs : pyStartsWith line "item." = false := by
        rcases Bool.eq_false_or_eq_true (pyStartsWith line "item.") with ht | hf
        · exact absurd ((pyStartsWith_item_iff line h).mp ht) hi
        · exact hf
      simp [hs, h, hi]
  · rw [stepLine_of_no_dot st line h]
    simp [h]

/-- Claim C8: the line analysis is total.  A line with no `'.'` leaves the
whole loop state unchanged (skipped for all prefix statistics); a line whose
portion after the first `'.'` has no `'='` leaves `empty_value_count` and
`item_values` unchanged (the `IndexError` is caught); and every input yields
a complete result (in particular `new_lines_count` is always the number of
input lines). -/
theorem c8_malformed_lines_skipped (lines : List String) (st : LoopState)
    (line : String) :
    ('.' ∉ line.data → stepLine st line = st) ∧
      ('.' ∈ line.data → '=' ∉ (afterChar '.' line).data →
        (stepLine st line).empty_value_count = st.empty_value_count ∧
          (stepLine st line).item_values = st.item_values) ∧
      (processLines lines).new_lines_count = lines.length := by
  refine ⟨fun h => stepLine_of_no_dot st line h, fun h he => ?_, rfl⟩
  rw [stepLine_of_dot st line h]
  dsimp only
  rw [pySplit1_of_not_mem '=' _ he]
  simp

/-- Claim C5: for any iteration order of the input set
`{"item.1=Sword", "item.2=", "ui.title=Menu"}` (the old set being empty, the
diff is the whole set), the analysis yields `prefix_counts` sorted to
`[(item, 2), (ui, 1)]`, one empty value, two distinct prefixes, and the item
values `"Sword"` and `""` in some order. -/
theorem c5_example_set (l : List String)
    (h : l.Perm ["item.1=Sword", "item.2=", "ui.title=Menu"]) :
    (processLines l).prefix_counts = [("item", 2), ("ui", 1)] ∧
      (processLines l).empty_value_count = 1 ∧
      (processLines l).unique_prefixes = 2 ∧
      (processLines l).item_values.Perm ["Sword", ""] := by
  have hall : ∀ x ∈ (["item.1=Sword", "item.2=", "ui.title=Menu"] : List String).permutations',
      (processLines x).prefix_counts = [("item", 2), ("ui", 1)] ∧
        (processLines x).empty_value_count = 1 ∧
        (processLines x).unique_prefixes = 2 ∧
        (processLines x).item_values.Perm ["Sword", ""] := by decide
  exact hall l (List.mem_permutations'.mpr h)

/-- Witness for claim C5 at the enumeration order of the set literal. -/
theorem c5_example_set_witness :
    (processLines ["item.1=Sword", "item.2=", "ui.title=Menu"]).prefix_counts =
        [("item", 2), ("ui", 1)] ∧
      (processLines ["item.1=Sword", "item.2=", "ui.title=Menu"]).empty_value_count = 1 ∧
      (processLines ["item.1=Sword", "item.2=", "ui.title=Menu"]).unique_prefixes = 2 ∧
      (processLines ["item.1=Sword", "item.2=", "ui.title=Menu"]).item_values.Perm
        ["Sword", ""] :=
  c5_example_set ["item.1=Sword", "item.2=", "ui.title=Menu"] (List.Perm.refl _)

/-! ### Round trip: writing a snapshot then reading it back (claim C7) -/

theorem dropWhile_append_of_eq_nil (p : Char → Bool) (l1 l2 : List Char)
    (h : l1.dropWhile p = []) : (l1 ++ l2).dropWhile p = l2.dropWhile p := by
  induction l1 with
  | nil => simp
  | cons a l1 ih =>
    rw [List.dropWhile_cons] at h
    by_cases ha : p a = true
    · rw [List.cons_append, List.dropWhile_cons]
      simp only [ha, if_true]
      exact ih (by simpa [ha] using h)
    · simp [ha] at h

theorem dropWhile_append_of_eq_cons (p : Char → Bool) (l1 l2 : List Char)
    (x : Char) (xs : List Char) (h : l1.dropWhile p = x :: xs) :
    (l1 ++ l2).dropWhile p = x :: (xs ++ l2) := by
  induction l1 with
  | nil =>
    simp at h
  | cons a l1 ih =>
    rw [List.dropWhile_cons] at h
    by_cases ha : p a = true
    · rw [List.cons_append, List.dropWhile_cons]
      simp only [ha, if_true]
      exact ih (by simpa [ha] using h)
    · rw [if_neg ha] at h
      rw [List.cons_append, List.dropWhile_cons, if_neg ha]
      injection h with h1 h2
      rw [h1, h2]

theorem pyStripL_append_newline (l : List Char) :
    pyStripL (l ++ ['\n']) = pyStripL l := by
  unfold pyStripL
  rcases hd : l.dropWhile Char.isWhitespace with _ | ⟨x, xs⟩
  · rw [dropWhile_append_of_eq_nil Char.isWhitespace l ['\n'] hd]
    simp
  · rw [dropWhile_append_of_eq_cons Char.isWhitespace l ['\n'] x xs hd]
    rw [List.reverse_cons, List.reverse_cons, List.reverse_append, List.append_assoc,
      List.reverse_singleton, List.singleton_append, List.dropWhile_cons]
    rw [if_pos (by decide : Char.isWhitespace '\n' = true)]

theorem readlinesAux_line (xs : List Char) :
    ∀ (rest acc : List Char), '\n' ∉ xs →
      readlinesAux (xs ++ '\n' :: rest) acc =
        ((acc.reverse ++ xs) ++ ['\n']) :: readlinesAux rest [] := by
  induction xs with
  | nil =>
    intro rest acc _
    simp [readlinesAux]
  | cons c cs ih =>
    intro rest acc h
    have hc : ¬ c = '\n' := fun e => h (by simp [e])
    have hcs : '\n' ∉ cs := fun e => h (by simp [e])
    rw [List.cons_append]
    show (if c = '\n' then _ else readlinesAux (cs ++ '\n' :: rest) (c :: acc)) = _
    rw [if_neg hc, ih rest (c :: acc) hcs]
    simp

theorem writeLines_data (line : String) (rest : List String) :
    (writeLines (line :: rest)).data = line.data ++ '\n' :: (writeLines rest).data := by
  show (line ++ "\n" ++ writeLines rest).data = _
  rw [data_append, data_append]
  simp

theorem readlines_writeLines (lines : List String)
    (h : ∀ s ∈ lines, '\n' ∉ s.data) :
    readlinesAux (writeLines lines).data [] =
      lines.map (fun s => s.data ++ ['\n']) := by
  induction lines with
  | nil => rfl
  | cons line rest ih =>
    rw [writeLines_data, readlinesAux_line line.data (writeLines rest).data []
      (h line (by simp))]
    rw [ih (fun s hs => h s (by simp [hs]))]
    simp

theorem pyStrip_data_newline (s : String) (h : pyStrip s = s) :
    pyStrip (String.mk (s.data ++ ['\n'])) = s := by
  show String.mk (pyStripL (s.data ++ ['\n'])) = s
  rw [pyStripL_append_newline]
  exact h

/-- Claim C7: writing a set of whitespace-stripped, newline-free lines as a
snapshot (one line per entry, each followed by a newline) and reading the
file back with `read_file` yields exactly the same set of lines. -/
theorem c7_snapshot_roundtrip (lines : List String)
    (h : ∀ s ∈ lines, pyStrip s = s ∧ '\n' ∉ s.data) :
    readFileSet (writeLines lines) = lines.toFinset := by
  unfold readFileSet pyReadlines
  rw [readlines_writeLines lines (fun s hs => (h s hs).2)]
  rw [List.map_map, List.map_map]
  have : lines.map ((pyStrip ∘ String.mk) ∘ fun s => s.data ++ ['\n']) = lines.map id := by
    apply List.map_congr_left
    intro s hs
    exact pyStrip_data_newline s (h s hs).1
  rw [this, List.map_id]

/-- Witness for claim C7 on a concrete two-line snapshot. -/
theorem c7_snapshot_roundtrip_witness :
    readFileSet (writeLines ["a.x=1", "b.y="]) =
      (["a.x=1", "b.y="] : List String).toFinset :=
  c7_snapshot_roundtrip ["a.x=1", "b.y="] (by decide)

/-! ### The set behind the first-occurrence enumeration (claims C2, C3) -/

theorem dedupFirst_aux_toFinset (l : List String) :
    ∀ acc : List String,
      (l.foldl (fun acc s => if s ∈ acc then acc else acc ++ [s]) acc).toFinset =
        acc.toFinset ∪ l.toFinset := by
  induction l with
  | nil => intro acc; simp
  | cons s rest ih =>
    intro acc
    rw [List.foldl_cons]
    by_cases hs : s ∈ acc
    · rw [if_pos hs, ih acc]
      ext x
      simp only [Finset.mem_union, List.mem_toFinset, List.mem_cons]
      constructor
      · rintro (h1 | h1)
        · exact Or.inl h1
        · exact Or.inr (Or.inr h1)
      · rintro (h1 | h1 | h1)
        · exact Or.inl h1
        · exact Or.inl (h1 ▸ hs)
        · exact Or.inr h1
    · rw [if_neg hs, ih (acc ++ [s])]
      ext x
      simp only [Finset.mem_union, List.mem_toFinset, List.mem_append,
        List.mem_singleton, List.mem_cons]
      tauto

theorem dedupFirst_toFinset (l : List String) :
    (dedupFirst l).toFinset = l.toFinset := by
  unfold dedupFirst
  rw [dedupFirst_aux_toFinset l []]
  simp

/-! ### Claims C1, C2, C3 about a whole run of `analyze_file` -/

/-- Claim C1 counterexample: with the new input file missing, the error is
printed, yet a log file and an (empty) dump file are still produced — the
run does not abort, contrary to the claim that no output is produced. -/
theorem c1_counterexample :
    (analyze_file "T" "missing.txt" none none).errors =
        ["Error: File not found - missing.txt"] ∧
      (analyze_file "T" "missing.txt" none none).log_file.isSome = true ∧
      (analyze_file "T" "missing.txt" none none).dump_file = some [] := by
  decide

/-- Claim C1 (amended): when the new input file is missing or unreadable,
`read_file` prints the error and returns the empty set, and the run
continues: a log file is still written and the dump file is written with an
empty line set. -/
theorem c1_missing_file_reported_run_continues (now newPath : String)
    (oldFile : Option (String × String)) :
    (analyze_file now newPath none oldFile).errors =
        ["Error: File not found - " ++ newPath] ∧
      (analyze_file now newPath none oldFile).log_file.isSome = true ∧
      (analyze_file now newPath none oldFile).dump_file = some [] := by
  rcases oldFile with _ | ⟨p, c⟩ <;> simp [analyze_file, read_file]

/-- Claim C2 counterexample: current file `{a.x=1, b.y=2}` against previous
dump `{a.x=1}`.  The diff has a single line (`new_lines_count = 1`,
`b.y=2`), yet the listing after the `"\nNew lines:"` marker holds both lines
of the current snapshot — the log does not end with exactly the diff. -/
theorem c2_counterexample :
    (analyze_file "T" "new.lang" (some "a.x=1\nb.y=2\n")
          (some ("old", "a.x=1\n"))).log_file =
        some ["Analysis time: T", "New file: new.lang", "Comparison file: old",
          "Total number of new lines: 1", "Number of lines with empty values: 0",
          "Total length of new lines: 5", "Number of unique prefixes: 1",
          "\nPrefix statistics:", "b: 1", "\nNew lines:", "", "a.x=1", "b.y=2"] ∧
      (analyze_file "T" "new.lang" (some "a.x=1\nb.y=2\n")
          (some ("old", "a.x=1\n"))).analysis.new_lines_count = 1 ∧
      ((dedupFirst ((pyReadlines "a.x=1\nb.y=2\n").map pyStrip)).filter
          (fun l => decide (l ∉ dedupFirst ((pyReadlines "a.x=1\n").map pyStrip)))) =
        ["b.y=2"] := by
  decide

/-- Claim C2 (amended): for every run on a readable file, the log body ends,
after the header and statistics block, with the `"\nNew lines:"` marker, a
blank line, and a listing of the full current snapshot's line set (which is
what `_write_logs` passes to `_format_log_data`), not only the diff. -/
theorem c2_log_tail_lists_snapshot (now newPath content : String)
    (oldFile : Option (String × String)) :
    ∃ pre, (analyze_file now newPath (some content) oldFile).log_file =
      some (pre ++ (["\nNew lines:", ""] ++
        dedupFirst ((pyReadlines content).map pyStrip))) :=
  ⟨_, rfl⟩

/-- Claim C3 counterexample: current file `{k.a=1, k.b=2}` against previous
dump `{k.a=1}`.  The dump written is the full current snapshot, not the set
difference (which is just `k.b=2`). -/
theorem c3_counterexample :
    (analyze_file "T2" "cur.lang" (some "k.a=1\nk.b=2\n")
          (some ("prev", "k.a=1\n"))).dump_file =
        some ["k.a=1", "k.b=2"] ∧
      ((dedupFirst ((pyReadlines "k.a=1\nk.b=2\n").map pyStrip)).filter
          (fun l => decide (l ∉ dedupFirst ((pyReadlines "k.a=1\n").map pyStrip)))) =
        ["k.b=2"] ∧
      ¬ ((["k.a=1", "k.b=2"] : List String).toFinset =
          (["k.b=2"] : List String).toFinset) := by
  decide

/-- Claim C3 (amended): for every run on a readable file, the timestamped
dump file contains exactly the current snapshot's line set (the stripped
lines of the new file), one per entry — not the diff. -/
theorem c3_dump_is_current_snapshot (now newPath content : String)
    (oldFile : Option (String × String)) :
    (analyze_file now newPath (some content) oldFile).dump_file =
        some (dedupFirst ((pyReadlines content).map pyStrip)) ∧
      (dedupFirst ((pyReadlines content).map pyStrip)).toFinset =
        ((pyReadlines content).map pyStrip).toFinset :=
  ⟨rfl, dedupFirst_toFinset _⟩

/-! ### `find_latest_file` (claim C9) -/

theorem maxByMtime_mem (fs : List (String × Nat)) :
    ∀ best, maxByMtime fs best ∈ best :: fs := by
  induction fs with
  | nil => intro best; simp [maxByMtime]
  | cons f fs ih =>
    intro best
    show maxByMtime fs (if best.2 < f.2 then f else best) ∈ best :: f :: fs
    by_cases hb : best.2 < f.2
    · rw [if_pos hb]
      rcases List.mem_cons.mp (ih f) with h1 | h1
      · rw [h1]; simp
      · simp [h1]
    · rw [if_neg hb]
      rcases List.mem_cons.mp (ih best) with h1 | h1
      · rw [h1]; simp
      · simp [h1]

theorem maxByMtime_ge_best (fs : List (String × Nat)) :
    ∀ best, best.2 ≤ (maxByMtime fs best).2 := by
  induction fs with
  | nil => intro best; simp [maxByMtime]
  | cons f fs ih =>
    intro best
    show best.2 ≤ (maxByMtime fs (if best.2 < f.2 then f else best)).2
    by_cases hb : best.2 < f.2
    · rw [if_pos hb]
      exact le_trans (le_of_lt hb) (ih f)
    · rw [if_neg hb]
      exact ih best

theorem maxByMtime_ge (fs : List (String × Nat)) :
    ∀ best q, q ∈ fs → q.2 ≤ (maxByMtime fs best).2 := by
  induction fs with
  | nil => intro best q hq; simp at hq
  | cons f fs ih =>
    intro best q hq
    show q.2 ≤ (maxByMtime fs (if best.2 < f.2 then f else best)).2
    rcases List.mem_cons.mp hq with h1 | h1
    · by_cases hb : best.2 < f.2
      · rw [if_pos hb, h1]
        exact maxByMtime_ge_best fs f
      · rw [if_neg hb, h1]
        exact le_trans (Nat.le_of_not_lt hb) (maxByMtime_ge_best fs best)
    · by_cases hb : best.2 < f.2
      · rw [if_pos hb]; exact ih f q h1
      · rw [if_neg hb]; exact ih best q h1

/-- Claim C9: `find_latest_file` as defined in `analyzer.py` behaves as the
claim says: `none` on an empty match list, otherwise the path of a file of
greatest modification time.  The `utils.py` variant, however, evaluates
`str(max(files, default=None))` and so returns the string `"None"` — a
path-like, truthy value instead of a "not found" (no-path) result — when no
file matches: the claim describes the intended behaviour and `utils.py`
deviates from it at the empty input. -/
theorem c9_find_latest_file (files : List (String × Nat)) :
    (find_latest_file_analyzer [] = none ∧ find_latest_file_utils [] = "None") ∧
      (files ≠ [] →
        ∃ p ∈ files, find_latest_file_analyzer files = some p.1 ∧
          ∀ q ∈ files, q.2 ≤ p.2) := by
  refine ⟨⟨rfl, rfl⟩, ?_⟩
  intro hne
  match files with
  | [] => exact absurd rfl hne
  | f :: fs =>
    refine ⟨maxByMtime fs f, maxByMtime_mem fs f, rfl, ?_⟩
    intro q hq
    rcases List.mem_cons.mp hq with h1 | h1
    · rw [h1]
      exact maxByMtime_ge_best fs f
    · exact maxByMtime_ge fs f q h1
